import Mathlib

/-!
# Verification of the icing mutation-level correction learning pipeline

A shallow embedding of `src/icing/core/learning_function.py`, the module that
learns a correction function for sequence-similarity scores across somatic
mutation levels, together with theorems settling the specified properties.

External collaborators (the sequence database reader `icing.utils.io`, the
similarity engine `icing.core.cloning` and `icing.core.parallel_distance`,
the substitution-matrix table `icing.models.model`, numerical optimisers
`scipy.optimize.least_squares` and the coefficient output of `np.polyfit`,
and the Gaussian mixture fit of `sklearn.mixture`) are modelled as oracle
parameters, exactly at the interface through which the source invokes them.
Control flow, caching, data aggregation, normalisation, masking, the
rank-deficiency logic of the polynomial fit, and the threshold selection
rule are embedded directly from the source.

Machine floats are modelled as rationals; the on-disk cache is modelled as a
function from deterministic cache keys to optional stored artifacts.
-/

deriving instance DecidableEq for Except

namespace Icing

/-- Python exception outcomes that the embedded pipeline can surface:
a NameError from reading a never-assigned local, a numpy RankWarning escalated
to an exception by an active warnings-as-errors filter, and an IOError from
loading a missing artifact. -/
inductive PyErr
  | nameError
  | rankWarning
  | ioError
deriving DecidableEq

/-- Contents of one persisted cache artifact: `np.savez(filename, X=dnearest, mut=mut)`
stores the distance distribution `X` and the representative mutation value `mut`. -/
structure Npz where
  X : List ℚ
  mutation : ℚ
deriving DecidableEq

/-- The deterministic cache-artifact name built at lines 139-142 of
`learning_function.py`: a pure function of donor id, the two mutation-range
bounds, the bin count, and the max-sample cap. -/
structure CacheKey where
  donor : String
  lim1 : ℚ × ℚ
  lim2 : ℚ × ℚ
  bins : ℕ
  maxSeqs : ℕ
deriving DecidableEq

/-- The cache directory: maps a cache key to the artifact stored there, if any. -/
abbrev Fs := CacheKey → Option Npz

/-- A sequence record as the pipeline reads it: a mutation level and a junction. -/
structure Ig where
  mutation : ℚ
  junction : String
deriving DecidableEq

/-- `np.mean` over a list of rationals. -/
def npMean (l : List ℚ) : ℚ := l.sum / l.length

/-- `np.min` over a list of rationals (0 on the empty list, which numpy rejects;
the pipeline only applies it to nonempty data). -/
def npMin : List ℚ → ℚ
  | [] => 0
  | [x] => x
  | x :: y :: t => min x (npMin (y :: t))

/-- Line 342 of `learning_function.py`: `yvals = np.min(yvals) / yvals`.
Each retained mean is replaced by the minimum positive mean divided by it. -/
def normalise (ys : List ℚ) : List ℚ := ys.map (fun y => npMin ys / y)

/-- The normalisation step as the specification words it: divide every mean
by the minimum positive mean. Stated only for comparison with `normalise`,
which is the operation the source actually performs. -/
def specNormalise (ys : List ℚ) : List ℚ := ys.map (fun y => y / npMin ys)

/-- `np.linspace a b num`: `num` evenly spaced points from `a` to `b` inclusive. -/
def linspace (a b : ℚ) (num : ℕ) : List ℚ :=
  if num = 0 then []
  else if num = 1 then [a]
  else (List.range num).map (fun i : ℕ => a + (b - a) * (i : ℚ) / ((num : ℚ) - 1))

/-- Consecutive pairs of a list; `zip(lin[:-1], lin[1:])` in the source. -/
def consecPairs {α : Type} : List α → List (α × α)
  | [] => []
  | [_] => []
  | a :: b :: t => (a, b) :: consecPairs (b :: t)

/-- Lines 224-232 of `distr_muts`: from the maximum mutation `M` and the record
count `n`, build the bin list `[(0,0)] + zip(lin[:-1], lin[1:])` where
`lin = np.linspace(0, M, n_tot / 10.)` (old-numpy `int()` truncation of the
point count), and return `None` when only the `(0,0)` bin remains. -/
def distr_mutsSets (M : ℚ) (n : ℕ) : Option (List (ℚ × ℚ)) :=
  let lin := linspace 0 M (n / 10)
  let sets : List (ℚ × ℚ) := (0, 0) :: lin.zip lin.tail
  if sets.length = 1 then none else some sets

/-- The hard component assignment and largest-mean component index of a fitted
3-component Gaussian mixture: the part of `sklearn.mixture` the threshold
extractor consumes. `pred i` is the component predicted at grid point `i`,
`argmaxMean` is `np.argmax(gmm.means_)`. -/
structure GmmFit where
  pred : ℕ → ℕ
  argmaxMean : ℕ

/-- Lines 255-256 of `_gaussian_fit`: mirror the sorted array about zero and
append the original, producing the symmetrized sample handed to the mixture fit. -/
def symmetrize (arr : List ℚ) : List ℚ :=
  ((arr.insertionSort (· ≤ ·)).map (fun x => -x)) ++ arr

/-- First index at or after `i`, within `fuel` steps, satisfying `p`:
`np.min(np.where(...))`, with `none` for the empty-match `ValueError` case. -/
def findFirst (p : ℕ → Bool) : ℕ → ℕ → Option ℕ
  | 0, _ => none
  | fuel + 1, i => if p i then some i else findFirst p fuel (i + 1)

/-- Lines 250-289, `_gaussian_fit`: with fewer than 2 samples return 0;
otherwise fit the mixture on the symmetrized sample, scan the uniform
10000-point grid over `[0,1]`, and return the grid value at the smallest index
assigned to the largest-mean component, defaulting to index 0 when no grid
point is assigned to it. Grid point `i` is `i / 9999`. -/
def gaussian_fit (gmm : List ℚ → GmmFit) (arr : List ℚ) : ℚ :=
  if arr.length < 2 then 0
  else
    let g := gmm (symmetrize arr)
    let idx := (findFirst (fun i => decide (g.pred i = g.argmaxMean)) 10000 0).getD 0
    (idx : ℚ) / 9999

/-- `np.array(thresholds)[np.array(samples).argsort()[::-1]]` at line 375:
the thresholds reordered so that their sample counts are descending
(ascending argsort, then reversed). -/
def argsortDescThresholds (thresholds : List ℚ) (samples : List ℕ) : List ℚ :=
  (((thresholds.zip samples).insertionSort (fun p q => p.2 ≤ q.2)).reverse).map Prod.fst

/-- Lines 373-375: the returned global threshold — the first strictly positive
threshold in sample-count-descending order, or 0 when none is positive
(`(filter(lambda x: x > 0, ...) or [0])[0]`). -/
def thresholdChoice (thresholds : List ℚ) (samples : List ℕ) : ℚ :=
  ((argsortDescThresholds thresholds samples).filter (fun t => decide (0 < t))).headD 0

/-- Lines 31-33, the 4-parameter rational model
`x0 * (u^2 + x1 * u) / (u^2 + x2 * u + x3)`. -/
def least_squares_mdl (a b c d u : ℚ) : ℚ :=
  a * (u ^ 2 + b * u) / (u ^ 2 + c * u + d)

/-- Horner evaluation of `np.poly1d` coefficients (highest degree first). -/
def polyEval (coeffs : List ℚ) (x : ℚ) : ℚ :=
  coeffs.foldl (fun acc c => acc * x + c) 0

/-- The correction model returned by `learning_function`: the identity
correction `lambda _: 1`, or the polynomial `np.poly1d(np.polyfit(...))`.
The `rational` constructor encodes the return value the specification claims
(the fitted parameters of the rational model); the source never constructs it,
which is exactly what the development establishes. -/
inductive CorrectionModel
  | identity
  | poly (coeffs : List ℚ)
  | rational (a b c d : ℚ)
deriving DecidableEq

/-- Evaluation of a correction model at a mutation level. -/
def CorrectionModel.eval : CorrectionModel → ℚ → ℚ
  | .identity, _ => 1
  | .poly cs, x => polyEval cs x
  | .rational a b c d, u => least_squares_mdl a b c d u

/-- `np.polyfit` issues a RankWarning exactly when the Vandermonde system is
rank-deficient, i.e. when the number of distinct x-values is below `deg + 1`. -/
def polyfitWarns (xs : List ℚ) (deg : ℕ) : Bool :=
  decide (xs.dedup.length < deg + 1)

/-- Lines 351-357: inside `warnings.filterwarnings('error')`, fit the
degree-`order` polynomial; on a RankWarning retry at degree 2. A RankWarning
raised by the retry itself is not caught and escapes. The coefficient vector
of a successful fit comes from the numerical oracle `pc`. -/
def polyfitStep (pc : ℕ → List ℚ → List ℚ → List ℚ) (xs ys : List ℚ)
    (order : ℕ) : Except PyErr (List ℚ) :=
  if polyfitWarns xs order then
    if polyfitWarns xs 2 then .error .rankWarning
    else .ok (pc 2 xs ys)
  else .ok (pc order xs ys)

/-- Lines 48-56, `remove_duplicate_junctions`: keep only the first sequence for
each normalised junction (`extra.junction_re`, an external collaborator passed
as `jre`), preserving first-occurrence order; return the kept sequences and
their normalised junctions. -/
def remove_duplicate_junctions (jre : String → String) (igs_list : List Ig) :
    List Ig × List String :=
  igs_list.foldl
    (fun acc ig =>
      let junc := jre ig.junction
      if junc ∈ acc.2 then acc else (acc.1 ++ [ig], acc.2 ++ [junc]))
    ([], [])

/-- Substitution matrix produced by `icing.models.model.model_matrix`
(external collaborator; its content is never inspected by this module). -/
abbrev DistMat := List (List ℚ)

/-- The default string-subsequence-kernel parameter dictionary of line 91. -/
structure SskParams where
  minKn : ℕ
  maxKn : ℕ
  lamda : ℚ
deriving DecidableEq

/-- The caller-supplied `sim_func_args` configuration dictionary, restricted to
the keys this module reads or writes. `none` models an absent key. -/
structure SimFuncArgs where
  correct : Option Bool
  tol : Option ℕ
  model : Option String
  dist_mat : Option DistMat
  ssk_params : Option SskParams
  method : Option String
  sim_score_params : Option (ℕ × ℕ)
deriving DecidableEq

/-- External collaborators invoked by `make_hist`: `sklearn.utils.shuffle`,
`icing.models.model.model_matrix`, `cloning.inverse_index` (of which only the
key list is consumed), and the two parallel nearest-neighbour reducers. -/
structure Ext where
  shuffleIgs : List Ig → List String → List Ig × List String
  model_matrix : String → DistMat
  inverse_index : List Ig → List String
  dnearest_intra : SimFuncArgs → List Ig → List ℚ
  dnearest_inter : SimFuncArgs → List Ig → List Ig → List ℚ

/-- Lines 85-99 of `make_hist`: the in-place mutation of `sim_func_args` —
force `correct = False` and `tol = 1000`, fill defaults for `model`,
`dist_mat`, `ssk_params` and `method`, and populate `sim_score_params` with
V/J segment counts when the method needs them. -/
def applySimArgsMutation (E : Ext) (ig1 ig2 : List Ig) (isIntra : Bool)
    (a0 : SimFuncArgs) : SimFuncArgs :=
  let a1 := { a0 with correct := some false, tol := some 1000 }
  let a2 := { a1 with model := some (a1.model.getD "ham") }
  let a3 := { a2 with dist_mat := some (a2.dist_mat.getD (E.model_matrix "ham")) }
  let a4 := { a3 with ssk_params := some (a3.ssk_params.getD ⟨1, 8, 3 / 4⟩) }
  let dd := E.inverse_index (if isIntra then ig1 else ig1 ++ ig2)
  let method := a4.method.getD "jaccard"
  let a5 := { a4 with method := some method }
  let nV := (dd.filter (fun s => s.contains 'V')).length
  let nJ := (dd.filter (fun s => s.contains 'J')).length
  if method = "pcc" ∨ method = "hypergeometric" then
    { a5 with sim_score_params := some (nV, nJ) }
  else a5

/-- Observable calls to the external database and similarity collaborators,
recorded so that the cache-hit fast path can be shown to make none. -/
inductive Effect
  | numRecordsQuery
  | dbQuery
  | simCompute
deriving DecidableEq

/-- Result of the embedded `make_hist`: the returned path (`none` models the
empty-string failure sentinel), the cache state after any write, the
`sim_func_args` dictionary after any in-place mutation, and the effects. -/
structure HistResult where
  path : Option CacheKey
  fs : Fs
  args : SimFuncArgs
  effects : List Effect

/-- Lines 63-129, `make_hist`: return at once on a pre-existing artifact;
return the failure sentinel when either junction set is below `min_seqs`;
otherwise subsample to `max_seqs`, mutate `sim_func_args`, run the
nearest-neighbour computation, and persist the artifact under `key`.
Plot rendering is cosmetic and not modelled. -/
def make_hist (E : Ext) (fs : Fs) (juncs1 juncs2 : List String) (key : CacheKey)
    (mutation : ℚ) (maxSeqs minSeqs : ℕ) (ig1 ig2 : List Ig) (isIntra : Bool)
    (a : SimFuncArgs) : HistResult :=
  if (fs key).isSome then ⟨some key, fs, a, []⟩
  else if juncs1.length < minSeqs ∨ juncs2.length < minSeqs then ⟨none, fs, a, []⟩
  else
    let p1 :=
      if maxSeqs < juncs1.length then
        let sh := E.shuffleIgs ig1 juncs1
        (sh.1.take maxSeqs, sh.2.take maxSeqs)
      else (ig1, juncs1)
    let p2 :=
      if maxSeqs < juncs2.length then
        let sh := E.shuffleIgs ig2 juncs2
        (sh.1.take maxSeqs, sh.2.take maxSeqs)
      else (ig2, juncs2)
    let a1 := applySimArgsMutation E p1.1 p2.1 isIntra a
    let dnearest :=
      if isIntra then E.dnearest_intra a1 p1.1 else E.dnearest_inter a1 p1.1 p2.1
    ⟨some key, fun k => if k = key then some ⟨dnearest, mutation⟩ else fs k, a1,
      [Effect.simCompute]⟩

/-- The external sequence database (`icing.utils.io`): total record count and
the two filtered reads the intra-donor sampler performs (exact-zero mutation,
and half-open interval membership), each capped at `max_records`. -/
structure DbOracle where
  numRecords : ℕ
  readDbZero : ℚ → List Ig
  readDbRange : ℚ × ℚ → ℚ → List Ig

/-- Result of the embedded `intra_donor_distance`. -/
structure IntraResult where
  path : Option CacheKey
  mutation : ℚ
  fs : Fs
  args : SimFuncArgs
  effects : List Effect

/-- Lines 132-172, `intra_donor_distance`: build the deterministic cache key;
on a pre-existing artifact return its path and stored mutation value at once,
with no external calls; otherwise query the database (exact-zero or interval
regime), deduplicate junctions, compute the representative mutation value, and
delegate to `make_hist`. -/
def intra_donor_distance (E : Ext) (db : DbOracle) (jre : String → String)
    (fs : Fs) (lim_mut1 lim_mut2 : ℚ × ℚ) (quantity : ℚ) (donor : String)
    (bins maxSeqs minSeqs : ℕ) (a : SimFuncArgs) : IntraResult :=
  let key : CacheKey := ⟨donor, lim_mut1, lim_mut2, bins, maxSeqs⟩
  match fs key with
  | some npz => ⟨some key, npz.mutation, fs, a, []⟩
  | none =>
    let n_tot := db.numRecords
    if max lim_mut1.2 lim_mut2.2 = 0 then
      let igs := db.readDbZero (quantity * n_tot)
      let r := remove_duplicate_junctions jre igs
      let h := make_hist E fs r.2 r.2 key 0 maxSeqs minSeqs r.1 r.1 true a
      ⟨h.path, 0, h.fs, h.args, Effect.numRecordsQuery :: Effect.dbQuery :: h.effects⟩
    else
      let igsA := db.readDbRange lim_mut1 (quantity * n_tot)
      let rA := remove_duplicate_junctions jre igsA
      let igsB := db.readDbRange lim_mut2 (quantity * n_tot)
      let rB := remove_duplicate_junctions jre igsB
      if rA.2.length = 0 ∨ rB.2.length = 0 then
        ⟨none, 0, fs, a, [Effect.numRecordsQuery, Effect.dbQuery, Effect.dbQuery]⟩
      else
        let mutation := npMean (rA.1.map Ig.mutation ++ rB.1.map Ig.mutation)
        let h := make_hist E fs rA.2 rB.2 key mutation maxSeqs minSeqs rA.1 rB.1 true a
        ⟨h.path, mutation, h.fs, h.args,
          Effect.numRecordsQuery :: Effect.dbQuery :: Effect.dbQuery :: h.effects⟩

/-- The two `icing.utils.io` queries `distr_muts` performs inside its `try`
block; either may raise, which the driver catches. -/
structure IoOracle where
  maxMut : Except PyErr ℚ
  numRecords : Except PyErr ℕ

/-- `d.setdefault(m, []).append(f)` over an association list: append `f` to the
group of `m`, creating the group at the end on first encounter. -/
def appendAtKey (d : List (ℚ × List (Option CacheKey))) (m : ℚ)
    (f : Option CacheKey) : List (ℚ × List (Option CacheKey)) :=
  if d.any (fun p => decide (p.1 = m)) then
    d.map (fun p => if p.1 = m then (p.1, p.2 ++ [f]) else p)
  else d ++ [(m, [f])]

/-- Lines 244-246 of `distr_muts`: group the `(path, mutation)` outputs into a
dictionary from representative mutation value to list of paths. -/
def groupByMut (out_muts : List (Option CacheKey × ℚ)) :
    List (ℚ × List (Option CacheKey)) :=
  out_muts.foldl (fun d fm => appendAtKey d fm.2 fm.1) []

/-- Lines 219-247, `distr_muts`: compute the bin list from the maximum mutation
value and the record count; return `None` when only the `(0,0)` bin remains;
otherwise run the intra-donor sampler once per bin (paired with itself) and
group the results by representative mutation value. An exception from the
`io` queries is caught and turns into the empty grouping (an empty dictionary,
not `None`). The sampler is the `intra` oracle, already closed over database,
cache and configuration state. -/
def distr_muts (io : IoOracle) (intra : ℚ × ℚ → ℚ × ℚ → Option CacheKey × ℚ) :
    Option (List (ℚ × List (Option CacheKey))) :=
  match io.maxMut, io.numRecords with
  | .ok max_mut, .ok n_tot =>
    match distr_mutsSets max_mut n_tot with
    | none => none
    | some sets => some (groupByMut (sets.map (fun s => intra s s)))
  | _, _ => some (groupByMut [])

/-- The numerical oracles `learning_function` consults: the Gaussian mixture
fit of `_gaussian_fit`, the bounded soft-L1 `scipy.optimize.least_squares`
solve (returning the fitted rational parameters `res.x`), and the coefficient
vector computed by a non-rank-deficient `np.polyfit` at a given degree. -/
structure LfOracles where
  gmm : List ℚ → GmmFit
  lsq : List ℚ → List ℚ → ℚ × ℚ × ℚ × ℚ
  polyCoeffs : ℕ → List ℚ → List ℚ → List ℚ

/-- Accumulator of the loading loop at lines 317-326: the per-artifact sample
counts and extracted thresholds, in encounter order, and the nested dictionary
`d_dict` keyed by the path's donor prefix and the mutation value. -/
structure LfAcc where
  samples : List ℕ
  thresholds : List ℚ
  ddict : List (String × List (ℚ × ℚ))

/-- Inner-dictionary `setdefault(k, mean)`: insert only when `k` is absent. -/
def setdefaultInner (l : List (ℚ × ℚ)) (k v : ℚ) : List (ℚ × ℚ) :=
  if l.any (fun p => decide (p.1 = k)) then l else l ++ [(k, v)]

/-- `d_dict.setdefault(donor, dict()).setdefault(k, mean)` over association
lists: create the donor group at the end on first encounter, and insert the
mutation-to-mean entry only when the mutation key is absent. -/
def setdefaultOuter (d : List (String × List (ℚ × ℚ))) (dk : String) (k v : ℚ) :
    List (String × List (ℚ × ℚ)) :=
  if d.any (fun p => decide (p.1 = dk)) then
    d.map (fun p => if p.1 = dk then (p.1, setdefaultInner p.2 k v) else p)
  else d ++ [(dk, [(k, v)])]

/-- One iteration of the loading loop (lines 319-326): load the artifact at
path `o` (an IOError when it is missing), record its sample count, extract a
threshold from its distance distribution, and fold its mean similarity into
`d_dict` under the donor prefix of the path and the mutation value `k`. -/
def lfStep (gmm : List ℚ → GmmFit) (fs : Fs) (k : ℚ) (acc : LfAcc)
    (o : CacheKey) : Except PyErr LfAcc :=
  match fs o with
  | none => .error .ioError
  | some npz =>
    .ok ⟨acc.samples ++ [npz.X.length],
         acc.thresholds ++ [gaussian_fit gmm npz.X],
         setdefaultOuter acc.ddict o.donor k (npMean npz.X)⟩

/-- The inner loading loop, over the non-empty paths of one dictionary entry. -/
def lfLoop (gmm : List ℚ → GmmFit) (fs : Fs) (k : ℚ) :
    LfAcc → List CacheKey → Except PyErr LfAcc
  | acc, [] => .ok acc
  | acc, o :: rest =>
    match lfStep gmm fs k acc o with
    | .error e => .error e
    | .ok acc2 => lfLoop gmm fs k acc2 rest

/-- The full loading loop of lines 317-326, over every non-empty path of every
dictionary entry. -/
def lfAccumulateFrom (gmm : List ℚ → GmmFit) (fs : Fs) :
    LfAcc → List (ℚ × List (Option CacheKey)) → Except PyErr LfAcc
  | acc, [] => .ok acc
  | acc, kv :: rest =>
    match lfLoop gmm fs kv.1 acc (kv.2.filterMap id) with
    | .error e => .error e
    | .ok acc2 => lfAccumulateFrom gmm fs acc2 rest

/-- The loading loop started from the empty accumulator. -/
def lfAccumulate (gmm : List ℚ → GmmFit) (fs : Fs)
    (my_dict : List (ℚ × List (Option CacheKey))) : Except PyErr LfAcc :=
  lfAccumulateFrom gmm fs ⟨[], [], []⟩ my_dict

/-- Association-list lookup with default 0; `v[x]` for a key of `v`. -/
def lookupD (l : List (ℚ × ℚ)) (x : ℚ) : ℚ :=
  ((l.find? (fun p => decide (p.1 = x))).map Prod.snd).getD 0

/-- Lines 292-375, `learning_function`. For `None` input: the identity
correction and threshold 0, no fitting. Otherwise: load every cached
distribution, aggregate per-donor statistics (the loop at line 329 leaves the
variables of the last `d_dict` group in scope; an empty `d_dict` leaves them
never assigned, a NameError), sort the mutation values, keep those with
strictly positive mean, return the identity correction and threshold 0 when
fewer than 2 remain, normalise, run the rational least-squares fit, fit the
polynomial with the rank-deficiency retry, and return the polynomial together
with the sample-count-weighted threshold choice. -/
def learning_function (O : LfOracles) (fs : Fs)
    (my_dict : Option (List (ℚ × List (Option CacheKey)))) (order : ℕ) :
    Except PyErr (CorrectionModel × ℚ) :=
  match my_dict with
  | none => .ok (.identity, 0)
  | some d =>
    match lfAccumulate O.gmm fs d with
    | .error e => .error e
    | .ok acc =>
      match acc.ddict.getLast? with
      | none => .error .nameError
      | some kv =>
        let xvals := (kv.2.map Prod.fst).insertionSort (· ≤ ·)
        let xy := xvals.map (fun x => (x, lookupD kv.2 x))
        let pairs := xy.filter (fun p => decide (0 < p.2))
        if pairs.length < 2 then .ok (.identity, 0)
        else
          let xs := pairs.map Prod.fst
          let ys := normalise (pairs.map Prod.snd)
          let _res := O.lsq xs ys
          match polyfitStep O.polyCoeffs xs ys order with
          | .error e => .error e
          | .ok cs => .ok (.poly cs, thresholdChoice acc.thresholds acc.samples)

/-- The model part of the orchestrator result: parameters loaded from a
pre-existing artifact file, or a freshly computed correction model. -/
inductive GcfModel
  | loaded (popt : List ℚ)
  | computed (m : CorrectionModel)
deriving DecidableEq

/-- Lines 378-400, `generate_correction_function`: when both the parameters
artifact and the global threshold artifact exist, load and return them;
otherwise run the binning driver and the correction fitter. The freshly
computed branch does not persist its outputs. `artifacts` models the two
optional files; `aplot` is the diagnostic plot path passed through. -/
def generate_correction_function (O : LfOracles)
    (artifacts : Option (List ℚ) × Option ℚ) (fs : Fs) (io : IoOracle)
    (intra : ℚ × ℚ → ℚ × ℚ → Option CacheKey × ℚ) (order : ℕ) (aplot : String) :
    Except PyErr (GcfModel × ℚ × String) :=
  match artifacts with
  | (some popt, some th) => .ok (.loaded popt, th, aplot)
  | _ =>
    match learning_function O fs (distr_muts io intra) order with
    | .error e => .error e
    | .ok (m, th) => .ok (.computed m, th, aplot)

/-! ### Concrete instances used to evaluate the embedded pipeline -/

/-- A mixture-fit outcome assigning every grid point to component 0, which is
also the largest-mean component. -/
def gmm0 : List ℚ → GmmFit := fun _ => ⟨fun _ => 0, 0⟩

/-- Concrete numerical oracles: rational fit returning `(1, 2, 3, 4)` and a
polynomial fit returning the constant coefficient vector `[1]`. -/
def O0 : LfOracles := ⟨gmm0, fun _ _ => (1, 2, 3, 4), fun _ _ _ => [1]⟩

/-- Cache key of the bin with both mutation ranges `(q, q)` for donor `d`. -/
def ck (q : ℚ) : CacheKey := ⟨"d", (q, q), (q, q), 50, 1000⟩

/-- A cache holding four single-sample distance distributions. -/
def fs0 : Fs := fun k =>
  if k = ck 1 then some ⟨[2 / 10], 1⟩
  else if k = ck 2 then some ⟨[3 / 10], 2⟩
  else if k = ck 3 then some ⟨[4 / 10], 3⟩
  else if k = ck 4 then some ⟨[5 / 10], 4⟩
  else none

/-- Four populated mutation bins, each with one cached distribution. -/
def d0 : List (ℚ × List (Option CacheKey)) :=
  [(1, [some (ck 1)]), (2, [some (ck 2)]), (3, [some (ck 3)]), (4, [some (ck 4)])]

/-- Exactly two populated mutation bins. -/
def d9 : List (ℚ × List (Option CacheKey)) :=
  [(1, [some (ck 1)]), (2, [some (ck 2)])]

/-- A database whose statistics queries raise, as caught at line 240. -/
def ioErr : IoOracle := ⟨.error .ioError, .error .ioError⟩

/-- An intra-donor sampler stub returning the failure sentinel. -/
def intra0 : ℚ × ℚ → ℚ × ℚ → Option CacheKey × ℚ := fun _ _ => (none, 0)

/-- External collaborators with a fixed two-sample distance output. -/
def ext0 : Ext :=
  ⟨fun a b => (a, b), fun _ => [], fun _ => [], fun _ _ => [1 / 2, 1 / 3],
   fun _ _ _ => []⟩

/-- A 20-record database with two distinct zero-mutation sequences. -/
def db0 : DbOracle :=
  ⟨20, fun _ => [⟨0, "a"⟩, ⟨0, "b"⟩], fun _ _ => []⟩

/-- A configuration dictionary with every recognised key absent. -/
def args0 : SimFuncArgs := ⟨none, none, none, none, none, none, none⟩

/-- Identity junction normalisation. -/
def jre0 : String → String := id

/-- The empty cache. -/
def fsEmpty : Fs := fun _ => none

/-! ### Helper lemmas -/

theorem npMin_mem : ∀ l : List ℚ, l ≠ [] → npMin l ∈ l := by
  intro l
  induction l with
  | nil => intro h; exact absurd rfl h
  | cons x t ih =>
    intro _
    cases t with
    | nil => simp [npMin]
    | cons y t2 =>
      rcases min_choice x (npMin (y :: t2)) with h1 | h1
      · simp [npMin, h1]
      · have := ih (by simp)
        simp only [npMin, h1]
        exact List.mem_cons_of_mem x this

theorem npMin_le : ∀ l : List ℚ, ∀ y ∈ l, npMin l ≤ y := by
  intro l
  induction l with
  | nil => intro y hy; cases hy
  | cons x t ih =>
    intro y hy
    cases t with
    | nil =>
      have hx : y = x := by simpa using hy
      subst hx
      simp [npMin]
    | cons z t2 =>
      rcases List.mem_cons.1 hy with h | h
      · subst h; exact min_le_left _ _
      · exact le_trans (min_le_right _ _) (ih y h)

theorem findFirst_lt (p : ℕ → Bool) :
    ∀ fuel i j, findFirst p fuel i = some j → j < i + fuel := by
  intro fuel
  induction fuel with
  | zero => intro i j h; simp [findFirst] at h
  | succ n ih =>
    intro i j h
    simp only [findFirst] at h
    by_cases hp : p i
    · rw [if_pos hp] at h
      cases h
      omega
    · rw [if_neg hp] at h
      have := ih (i + 1) j h
      omega

theorem findFirst_eq_none (p : ℕ → Bool) :
    ∀ fuel i, (∀ j, i ≤ j → j < i + fuel → p j = false) → findFirst p fuel i = none := by
  intro fuel
  induction fuel with
  | zero => intro i _; rfl
  | succ n ih =>
    intro i hall
    simp only [findFirst]
    rw [if_neg (by simp [hall i (le_refl i) (by omega)])]
    exact ih (i + 1) (fun j h1 h2 => hall j (by omega) (by omega))

theorem zip_tail_eq_consecPairs {α : Type} (l : List α) :
    l.zip l.tail = consecPairs l := by
  induction l with
  | nil => rfl
  | cons a t ih =>
    cases t with
    | nil => rfl
    | cons b t2 =>
      simp only [List.tail_cons, List.zip_cons_cons, consecPairs]
      rw [← ih]
      rfl

theorem consecPairs_eq_nil_iff {α : Type} (l : List α) :
    consecPairs l = [] ↔ l.length ≤ 1 := by
  cases l with
  | nil => simp [consecPairs]
  | cons a t =>
    cases t with
    | nil => simp [consecPairs]
    | cons b t2 => simp [consecPairs]

theorem length_linspace (a b : ℚ) (num : ℕ) : (linspace a b num).length = num := by
  unfold linspace
  by_cases h0 : num = 0
  · simp [h0]
  · by_cases h1 : num = 1
    · simp [h0, h1]
    · rw [if_neg h0, if_neg h1, List.length_map, List.length_range]

/-! ### Claim theorems -/

/-- Claim C7 (confirmed): for `None` input, `learning_function` performs no
fitting and returns the identity correction, a function mapping every input to
exactly 1, together with threshold 0. -/
theorem C7_identity_fallback (O : LfOracles) (fs : Fs) (order : ℕ) (x : ℚ) :
    learning_function O fs none order = .ok (CorrectionModel.identity, 0) ∧
    CorrectionModel.eval CorrectionModel.identity x = 1 :=
  ⟨rfl, rfl⟩

/-- Claim C2, counterexample: on the positive means `[2, 4]` the source
normalisation (line 342) produces `[1, 1/2]`, whereas dividing each mean
by the minimum — what the claim states — would give `[1, 2]`; the produced
value `1/2` is not `≥ 1`. -/
theorem C2_counterexample :
    normalise [2, 4] = [1, 1 / 2] ∧ specNormalise [2, 4] = [1, 2] ∧
    ¬ (1 : ℚ) ≤ 1 / 2 := by
  refine ⟨?_, ?_, by norm_num⟩
  · norm_num [normalise, npMin, min_def]
  · norm_num [specNormalise, npMin, min_def]

/-- Claim C2 (corrected): the normalisation step divides the minimum positive
mean by every retained mean (`np.min(yvals) / yvals`), so each normalised
value is `min / y`, every normalised value is at most 1, and the mutation
level attaining the minimum maps to exactly 1 — a multiplicative scale-down,
not scale-up. -/
theorem C2_normalise_scale_down (ys : List ℚ) (hpos : ∀ y ∈ ys, 0 < y)
    (hlen : 2 ≤ ys.length) :
    normalise ys = ys.map (fun y => npMin ys / y) ∧
    (∀ z ∈ normalise ys, z ≤ 1) ∧ 1 ∈ normalise ys := by
  have hne : ys ≠ [] := by
    intro h
    rw [h] at hlen
    simp at hlen
  have hminmem := npMin_mem ys hne
  have hminpos : 0 < npMin ys := hpos _ hminmem
  refine ⟨rfl, ?_, ?_⟩
  · intro z hz
    rcases List.mem_map.1 hz with ⟨y, hy, hzy⟩
    have hypos := hpos y hy
    rw [← hzy]
    rw [div_le_one hypos]
    exact npMin_le ys y hy
  · refine List.mem_map.2 ⟨npMin ys, hminmem, ?_⟩
    exact div_self (ne_of_gt hminpos)

/-- Witness for C2: the amended normalisation property evaluated on `[2, 4]`. -/
theorem C2_witness :
    (∀ y ∈ ([2, 4] : List ℚ), 0 < y) ∧ 2 ≤ ([2, 4] : List ℚ).length ∧
    (normalise [2, 4] = ([2, 4] : List ℚ).map (fun y => npMin [2, 4] / y) ∧
     (∀ z ∈ normalise [2, 4], z ≤ 1) ∧ 1 ∈ normalise [2, 4]) :=
  ⟨by norm_num, by norm_num,
   C2_normalise_scale_down [2, 4] (by norm_num) (by norm_num)⟩

/-- Claim C4, counterexample: with maximum mutation `M = 0` and `n = 20`
records the driver does not report "no correction needed" — it produces the
degenerate bin list `[(0,0), (0,0)]`; and with `M = 2`, `n = 15` it returns
`None` although a partition into `ceil(15/10) = 2` points would produce bins
(the point count is truncated, `int(n/10)`, not rounded up). -/
theorem C4_counterexample :
    distr_mutsSets 0 20 = some [(0, 0), (0, 0)] ∧ distr_mutsSets 2 15 = none := by
  constructor
  · norm_num [distr_mutsSets, linspace, List.range_succ]
  · norm_num [distr_mutsSets, linspace]

/-- Claim C9 (code bug): with exactly two retained mutation levels and the
default order 3, the degree-3 fit is rank-deficient and so is the degree-2
retry; the RankWarning raised by the retry is not caught (the
warnings-as-errors filter is still active) and the polynomial-fitting step
raises out of `learning_function`. -/
theorem C9_rank_deficiency_raises :
    learning_function O0 fs0 (some d9) 3 = .error .rankWarning := by
  norm_num [learning_function, lfAccumulate, lfAccumulateFrom, lfLoop, lfStep, d9,
    fs0, ck, O0, gmm0, gaussian_fit, npMean, setdefaultOuter, setdefaultInner,
    lookupD, normalise, npMin, polyfitStep, polyfitWarns, List.insertionSort,
    List.orderedInsert, List.filterMap, List.dedup, List.find?, List.filter,
    thresholdChoice, argsortDescThresholds, min_def]

/-- Claim C3 (code bug): when the statistics queries of the binning driver
raise, `distr_muts` catches the exception and returns an empty dictionary
(not `None`); `learning_function` on an empty dictionary leaves its loop
variables never assigned and raises a NameError at `mask = yvals > 0`, which
escapes `generate_correction_function` instead of the documented identity
model and zero threshold. -/
theorem C3_binning_exception_crash :
    generate_correction_function O0 (none, none) fs0 ioErr intra0 3 "alphaplot"
      = .error .nameError := by
  norm_num [generate_correction_function, distr_muts, ioErr, groupByMut,
    learning_function, lfAccumulate, lfAccumulateFrom]

/-- Claim C1, counterexample: on four populated bins with strictly positive
means, `learning_function` returns the polynomial `np.poly1d` fit (here the
oracle coefficient vector `[1]`) as its first component — not the parameters
`(1, 2, 3, 4)` the rational least-squares oracle produced. -/
theorem C1_counterexample :
    learning_function O0 fs0 (some d0) 3 = .ok (.poly [1], 0) ∧
    CorrectionModel.poly [1] ≠ CorrectionModel.rational 1 2 3 4 := by
  constructor
  · norm_num [learning_function, lfAccumulate, lfAccumulateFrom, lfLoop, lfStep, d0,
      fs0, ck, O0, gmm0, gaussian_fit, npMean, setdefaultOuter, setdefaultInner,
      lookupD, normalise, npMin, polyfitStep, polyfitWarns, List.insertionSort,
      List.orderedInsert, List.filterMap, List.dedup, List.find?, List.filter,
      thresholdChoice, argsortDescThresholds, min_def]
  · exact fun h => CorrectionModel.noConfusion h

/-- Claim C1 (corrected): the first component of a successful
`learning_function` result is always the identity correction or the fitted
polynomial model; the rational model is fitted but only drawn on the
diagnostic plot, never returned. -/
theorem C1_returns_polynomial (O : LfOracles) (fs : Fs)
    (d : List (ℚ × List (Option CacheKey))) (order : ℕ) (m : CorrectionModel)
    (t : ℚ) (h : learning_function O fs (some d) order = .ok (m, t)) :
    m = CorrectionModel.identity ∨ ∃ cs, m = CorrectionModel.poly cs := by
  unfold learning_function at h
  dsimp only at h
  rcases hacc : lfAccumulate O.gmm fs d with e | acc <;> rw [hacc] at h <;>
    dsimp only at h
  · exact Except.noConfusion h
  · rcases hlast : acc.ddict.getLast? with _ | kv <;> rw [hlast] at h <;>
      dsimp only at h
    · exact Except.noConfusion h
    · split at h
      · left
        rw [Except.ok.injEq, Prod.mk.injEq] at h
        exact h.1.symm
      · split at h
        · exact Except.noConfusion h
        · right
          rw [Except.ok.injEq, Prod.mk.injEq] at h
          exact ⟨_, h.1.symm⟩

/-- Witness for C1: the corrected statement evaluated on the four-bin input. -/
theorem C1_witness :
    learning_function O0 fs0 (some d0) 3 = .ok (.poly [1], 0) ∧
    (CorrectionModel.poly [1] = CorrectionModel.identity ∨
     ∃ cs, CorrectionModel.poly [1] = CorrectionModel.poly cs) := by
  have h : learning_function O0 fs0 (some d0) 3 = .ok (.poly [1], 0) := by
    norm_num [learning_function, lfAccumulate, lfAccumulateFrom, lfLoop, lfStep, d0,
      fs0, ck, O0, gmm0, gaussian_fit, npMean, setdefaultOuter, setdefaultInner,
      lookupD, normalise, npMin, polyfitStep, polyfitWarns, List.insertionSort,
      List.orderedInsert, List.filterMap, List.dedup, List.find?, List.filter,
      thresholdChoice, argsortDescThresholds, min_def]
  exact ⟨h, C1_returns_polynomial O0 fs0 d0 3 (.poly [1]) 0 h⟩

/-- Claim C4 (corrected): for `M ≥ 0` and `n ≥ 1` the binning driver builds
`(0,0)` followed by the consecutive pairs of a linear partition of `[0, M]`
into `n / 10` points — the point count is truncated (old-numpy `int(n/10.)`),
not rounded up — and it returns `None` exactly when that partition has at most
one point, irrespective of `M`; when a bin list is produced it always begins
with `(0,0)`, and for `M = 0` with `n / 10 ≥ 2` the produced bins are the
degenerate `(0,0)` pairs rather than `None`. Partition point `i` is
`M * i / (n / 10 - 1)`. -/
theorem C4_binning (M : ℚ) (n : ℕ) (hM : 0 ≤ M) (hn : 1 ≤ n) :
    (∀ l, distr_mutsSets M n = some l → l.head? = some (0, 0)) ∧
    (distr_mutsSets M n = none ↔ n / 10 ≤ 1) ∧
    (2 ≤ n / 10 →
      distr_mutsSets M n = some ((0, 0) :: consecPairs (linspace 0 M (n / 10))) ∧
      (linspace 0 M (n / 10)).length = n / 10 ∧
      ∀ i, i < n / 10 →
        (linspace 0 M (n / 10)).getD i 0 = M * i / (((n / 10 : ℕ) : ℚ) - 1)) := by
  have hkey : ((0, 0) :: (linspace 0 M (n / 10)).zip (linspace 0 M (n / 10)).tail
      : List (ℚ × ℚ)).length = 1 ↔ n / 10 ≤ 1 := by
    rw [List.length_cons, Nat.add_left_eq_self, List.length_eq_zero,
      zip_tail_eq_consecPairs, consecPairs_eq_nil_iff, length_linspace]
  refine ⟨?_, ?_, ?_⟩
  · intro l hl
    unfold distr_mutsSets at hl
    dsimp only at hl
    split at hl
    · exact Option.noConfusion hl
    · rw [Option.some.injEq] at hl
      rw [← hl]
      rfl
  · unfold distr_mutsSets
    dsimp only
    constructor
    · intro h
      split at h
      · next hc => exact hkey.1 hc
      · exact Option.noConfusion h
    · intro h
      rw [if_pos (hkey.2 h)]
  · intro h2
    refine ⟨?_, length_linspace 0 M (n / 10), ?_⟩
    · unfold distr_mutsSets
      dsimp only
      rw [if_neg (fun hc => absurd (hkey.1 hc) (by omega)),
        zip_tail_eq_consecPairs]
    · intro i hi
      have h0 : ¬ n / 10 = 0 := by omega
      have h1 : ¬ n / 10 = 1 := by omega
      unfold linspace
      rw [if_neg h0, if_neg h1]
      rw [List.getD_eq_getElem?_getD, List.getElem?_map, List.getElem?_range hi]
      simp

/-- Witness for C4: the corrected binning property at `M = 1`, `n = 30`. -/
theorem C4_witness :
    (0 : ℚ) ≤ 1 ∧ 1 ≤ 30 ∧
    ((∀ l, distr_mutsSets 1 30 = some l → l.head? = some (0, 0)) ∧
     (distr_mutsSets 1 30 = none ↔ 30 / 10 ≤ 1) ∧
     (2 ≤ 30 / 10 →
       distr_mutsSets 1 30 = some ((0, 0) :: consecPairs (linspace 0 1 (30 / 10))) ∧
       (linspace 0 1 (30 / 10)).length = 30 / 10 ∧
       ∀ i, i < 30 / 10 →
         (linspace 0 1 (30 / 10)).getD i 0 = 1 * i / (((30 / 10 : ℕ) : ℚ) - 1))) :=
  ⟨by norm_num, by norm_num, C4_binning 1 30 (by norm_num) (by norm_num)⟩

/-- Claim C5 (confirmed): for any mixture-fit outcome, the threshold extractor
returns exactly 0 on arrays with fewer than 2 elements, a value in `[0, 1]`
on arrays with at least 2 elements, and the first grid point 0 — without
raising — in the degenerate case where no grid point is assigned to the
largest-mean component. -/
theorem C5_threshold_bounds (gmm : List ℚ → GmmFit) (arr : List ℚ) :
    (arr.length < 2 → gaussian_fit gmm arr = 0) ∧
    (2 ≤ arr.length →
      0 ≤ gaussian_fit gmm arr ∧ gaussian_fit gmm arr ≤ 1) ∧
    (2 ≤ arr.length →
      (∀ i, i < 10000 →
        (gmm (symmetrize arr)).pred i ≠ (gmm (symmetrize arr)).argmaxMean) →
      gaussian_fit gmm arr = 0) := by
  refine ⟨?_, ?_, ?_⟩
  · intro hlt
    unfold gaussian_fit
    rw [if_pos hlt]
  · intro hge
    unfold gaussian_fit
    rw [if_neg (by omega)]
    have hidx : ((findFirst
        (fun i => decide ((gmm (symmetrize arr)).pred i =
          (gmm (symmetrize arr)).argmaxMean)) 10000 0).getD 0) ≤ 9999 := by
      cases hf : findFirst (fun i => decide ((gmm (symmetrize arr)).pred i =
          (gmm (symmetrize arr)).argmaxMean)) 10000 0 with
      | none => simp
      | some j =>
        have := findFirst_lt _ 10000 0 j hf
        simp only [Option.getD_some]
        omega
    constructor
    · positivity
    · rw [div_le_one (by norm_num)]
      exact_mod_cast hidx
  · intro _ hdeg
    unfold gaussian_fit
    rw [if_neg (by omega)]
    dsimp only
    rw [findFirst_eq_none _ 10000 0
      (fun j _ hj => decide_eq_false (hdeg j (by omega)))]
    simp

/-- Witness for C5: bounds evaluated on the two-sample array `[0, 1/2]` with a
mixture fit assigning every grid point to the largest-mean component. -/
theorem C5_witness :
    2 ≤ ([0, 1 / 2] : List ℚ).length ∧
    (0 ≤ gaussian_fit gmm0 [0, 1 / 2] ∧ gaussian_fit gmm0 [0, 1 / 2] ≤ 1) :=
  ⟨by norm_num, (C5_threshold_bounds gmm0 [0, 1 / 2]).2.1 (by norm_num)⟩

/-- Claim C10 (confirmed): once `make_hist` passes its two early returns
(no pre-existing artifact, both junction sets at least `min_seqs`), the
caller-supplied configuration dictionary comes back with `correct` forced to
`False`, `tol` forced to `1000`, and the `model`, `dist_mat`, `ssk_params`
and `method` keys populated. -/
theorem C10_sim_args_mutation (E : Ext) (fs : Fs) (j1 j2 : List String)
    (key : CacheKey) (mutation : ℚ) (maxSeqs minSeqs : ℕ) (ig1 ig2 : List Ig)
    (isIntra : Bool) (a : SimFuncArgs) (hmiss : fs key = none)
    (h1 : minSeqs ≤ j1.length) (h2 : minSeqs ≤ j2.length) :
    (make_hist E fs j1 j2 key mutation maxSeqs minSeqs ig1 ig2 isIntra a).args.correct
        = some false ∧
    (make_hist E fs j1 j2 key mutation maxSeqs minSeqs ig1 ig2 isIntra a).args.tol
        = some 1000 ∧
    (make_hist E fs j1 j2 key mutation maxSeqs minSeqs ig1 ig2 isIntra a).args.model.isSome
        = true ∧
    (make_hist E fs j1 j2 key mutation maxSeqs minSeqs ig1 ig2 isIntra a).args.dist_mat.isSome
        = true ∧
    (make_hist E fs j1 j2 key mutation maxSeqs minSeqs ig1 ig2 isIntra a).args.ssk_params.isSome
        = true ∧
    (make_hist E fs j1 j2 key mutation maxSeqs minSeqs ig1 ig2 isIntra a).args.method.isSome
        = true := by
  unfold make_hist
  rw [hmiss]
  rw [if_neg (by simp)]
  rw [if_neg (by omega)]
  dsimp only
  unfold applySimArgsMutation
  dsimp only
  split <;> simp

/-- Witness for C10: the configuration mutation evaluated on a concrete
cache-miss call with two singleton junction sets. -/
theorem C10_witness :
    fsEmpty (ck 0) = none ∧ 1 ≤ (["a"] : List String).length ∧
    1 ≤ (["b"] : List String).length ∧
    ((make_hist ext0 fsEmpty ["a"] ["b"] (ck 0) 0 10 1 [] [] true args0).args.correct
        = some false ∧
     (make_hist ext0 fsEmpty ["a"] ["b"] (ck 0) 0 10 1 [] [] true args0).args.tol
        = some 1000 ∧
     (make_hist ext0 fsEmpty ["a"] ["b"] (ck 0) 0 10 1 [] [] true args0).args.model.isSome
        = true ∧
     (make_hist ext0 fsEmpty ["a"] ["b"] (ck 0) 0 10 1 [] [] true args0).args.dist_mat.isSome
        = true ∧
     (make_hist ext0 fsEmpty ["a"] ["b"] (ck 0) 0 10 1 [] [] true args0).args.ssk_params.isSome
        = true ∧
     (make_hist ext0 fsEmpty ["a"] ["b"] (ck 0) 0 10 1 [] [] true args0).args.method.isSome
        = true) :=
  ⟨rfl, by norm_num, by norm_num,
   C10_sim_args_mutation ext0 fsEmpty ["a"] ["b"] (ck 0) 0 10 1 [] [] true args0
     rfl (by norm_num) (by norm_num)⟩

/-- The cache-hit fast path of `intra_donor_distance`: a pre-existing artifact
short-circuits all computation — the stored mutation value is returned, the
cache is untouched, the configuration dictionary is untouched, and no external
call happens. -/
theorem intra_cache_hit (E : Ext) (db : DbOracle) (jre : String → String)
    (fs : Fs) (lim_mut1 lim_mut2 : ℚ × ℚ) (quantity : ℚ) (donor : String)
    (bins maxSeqs minSeqs : ℕ) (a : SimFuncArgs) (npz : Npz)
    (h : fs ⟨donor, lim_mut1, lim_mut2, bins, maxSeqs⟩ = some npz) :
    intra_donor_distance E db jre fs lim_mut1 lim_mut2 quantity donor bins
        maxSeqs minSeqs a =
      ⟨some ⟨donor, lim_mut1, lim_mut2, bins, maxSeqs⟩, npz.mutation, fs, a, []⟩ := by
  unfold intra_donor_distance
  dsimp only
  rw [h]

/-- When a cache-miss `make_hist` run leaves the artifact present, the run
returned the artifact path. -/
theorem make_hist_path_of_persist (E : Ext) (fs : Fs) (j1 j2 : List String)
    (key : CacheKey) (mutation : ℚ) (maxSeqs minSeqs : ℕ) (ig1 ig2 : List Ig)
    (isIntra : Bool) (a : SimFuncArgs) (npz : Npz) (hmiss : fs key = none)
    (hp : (make_hist E fs j1 j2 key mutation maxSeqs minSeqs ig1 ig2 isIntra a).fs key
        = some npz) :
    (make_hist E fs j1 j2 key mutation maxSeqs minSeqs ig1 ig2 isIntra a).path
      = some key := by
  unfold make_hist at hp ⊢
  rw [hmiss] at hp ⊢
  rw [if_neg (by simp)] at hp ⊢
  by_cases hc : j1.length < minSeqs ∨ j2.length < minSeqs
  · rw [if_pos hc] at hp
    dsimp only at hp
    rw [hmiss] at hp
    exact Option.noConfusion hp
  · rw [if_neg hc]

/-- When a full `intra_donor_distance` run leaves the artifact present, the
run returned the artifact path. -/
theorem intra_path_of_persist (E : Ext) (db : DbOracle) (jre : String → String)
    (fs : Fs) (lim_mut1 lim_mut2 : ℚ × ℚ) (quantity : ℚ) (donor : String)
    (bins maxSeqs minSeqs : ℕ) (a : SimFuncArgs) (npz : Npz)
    (hp : (intra_donor_distance E db jre fs lim_mut1 lim_mut2 quantity donor
        bins maxSeqs minSeqs a).fs ⟨donor, lim_mut1, lim_mut2, bins, maxSeqs⟩
        = some npz) :
    (intra_donor_distance E db jre fs lim_mut1 lim_mut2 quantity donor bins
        maxSeqs minSeqs a).path = some ⟨donor, lim_mut1, lim_mut2, bins, maxSeqs⟩ := by
  unfold intra_donor_distance at hp ⊢
  dsimp only at hp ⊢
  cases hfs : fs ⟨donor, lim_mut1, lim_mut2, bins, maxSeqs⟩ with
  | some npz0 =>
    rfl
  | none =>
    rw [hfs] at hp
    dsimp only at hp ⊢
    by_cases hz : max lim_mut1.2 lim_mut2.2 = 0
    · rw [if_pos hz] at hp ⊢
      exact make_hist_path_of_persist _ _ _ _ _ _ _ _ _ _ _ _ _ hfs hp
    · rw [if_neg hz] at hp ⊢
      by_cases he :
          (remove_duplicate_junctions jre
            (db.readDbRange lim_mut1 (quantity * db.numRecords))).2.length = 0 ∨
          (remove_duplicate_junctions jre
            (db.readDbRange lim_mut2 (quantity * db.numRecords))).2.length = 0
      · rw [if_pos he] at hp
        dsimp only at hp
        rw [hfs] at hp
        exact Option.noConfusion hp
      · rw [if_neg he] at hp ⊢
        exact make_hist_path_of_persist _ _ _ _ _ _ _ _ _ _ _ _ _ hfs hp

/-- Claim C6 (confirmed): after a first `intra_donor_distance` invocation has
persisted the cache artifact for a parameter tuple, a second invocation with
the identical parameters returns the same deterministically named cache path
— also the path the first invocation returned — together with the persisted
representative mutation value, performs no database query and no similarity
computation, leaves the cache unchanged, and does not touch the configuration
dictionary or re-validate the artifact content. -/
theorem C6_cache_idempotence (E : Ext) (db : DbOracle) (jre : String → String)
    (fs : Fs) (lim_mut1 lim_mut2 : ℚ × ℚ) (quantity : ℚ) (donor : String)
    (bins maxSeqs minSeqs : ℕ) (a : SimFuncArgs) (npz : Npz)
    (hpersist : (intra_donor_distance E db jre fs lim_mut1 lim_mut2 quantity
        donor bins maxSeqs minSeqs a).fs ⟨donor, lim_mut1, lim_mut2, bins, maxSeqs⟩
        = some npz) :
    let r1 := intra_donor_distance E db jre fs lim_mut1 lim_mut2 quantity donor
        bins maxSeqs minSeqs a
    let r2 := intra_donor_distance E db jre r1.fs lim_mut1 lim_mut2 quantity
        donor bins maxSeqs minSeqs a
    r2.path = some ⟨donor, lim_mut1, lim_mut2, bins, maxSeqs⟩ ∧
    r2.path = r1.path ∧ r2.mutation = npz.mutation ∧ r2.fs = r1.fs ∧
    r2.effects = [] ∧ r2.args = a := by
  intro r1 r2
  have h2 : r2 = ⟨some ⟨donor, lim_mut1, lim_mut2, bins, maxSeqs⟩,
      npz.mutation, r1.fs, a, []⟩ :=
    intra_cache_hit E db jre r1.fs lim_mut1 lim_mut2 quantity donor bins
      maxSeqs minSeqs a npz hpersist
  have h1 : r1.path = some ⟨donor, lim_mut1, lim_mut2, bins, maxSeqs⟩ :=
    intra_path_of_persist E db jre fs lim_mut1 lim_mut2 quantity donor bins
      maxSeqs minSeqs a npz hpersist
  rw [h2, h1]
  exact ⟨rfl, rfl, rfl, rfl, rfl, rfl⟩

/-- Witness for C6: a first run on the empty cache persists the artifact for
donor `d`, zero-mutation bin; the second run returns the same path and the
persisted mutation value with no external calls. -/
theorem C6_witness :
    (intra_donor_distance ext0 db0 jre0 fsEmpty (0, 0) (0, 0) 1 "d" 50 10 2 args0).fs
        ⟨"d", (0, 0), (0, 0), 50, 10⟩ = some ⟨[1 / 2, 1 / 3], 0⟩ ∧
    (let r1 := intra_donor_distance ext0 db0 jre0 fsEmpty (0, 0) (0, 0) 1 "d"
        50 10 2 args0
     let r2 := intra_donor_distance ext0 db0 jre0 r1.fs (0, 0) (0, 0) 1 "d"
        50 10 2 args0
     r2.path = some ⟨"d", (0, 0), (0, 0), 50, 10⟩ ∧ r2.path = r1.path ∧
     r2.mutation = (⟨[1 / 2, 1 / 3], 0⟩ : Npz).mutation ∧ r2.fs = r1.fs ∧
     r2.effects = [] ∧ r2.args = args0) := by
  have h : (intra_donor_distance ext0 db0 jre0 fsEmpty (0, 0) (0, 0) 1 "d" 50
      10 2 args0).fs ⟨"d", (0, 0), (0, 0), 50, 10⟩ = some ⟨[1 / 2, 1 / 3], 0⟩ := by
    simp only [intra_donor_distance, ext0, db0, jre0, fsEmpty, args0,
      remove_duplicate_junctions, make_hist, applySimArgsMutation, List.foldl]
    simp
  exact ⟨h, C6_cache_idempotence ext0 db0 jre0 fsEmpty (0, 0) (0, 0) 1 "d" 50
    10 2 args0 ⟨[1 / 2, 1 / 3], 0⟩ h⟩

/-- Claim C8 (confirmed): the global threshold returned by the correction
fitter is the first strictly positive threshold encountered when the
thresholds are reordered so that their sample counts are descending
(non-positive thresholds discarded), and 0 when no positive threshold
exists. -/
theorem C8_threshold_selection (thresholds : List ℚ) (samples : List ℕ)
    (h : thresholds.length = samples.length) :
    ∃ l : List (ℚ × ℕ),
      l.Perm (thresholds.zip samples) ∧
      l.Sorted (fun p q => q.2 ≤ p.2) ∧
      thresholdChoice thresholds samples
        = ((l.map Prod.fst).filter (fun t => decide (0 < t))).headD 0 ∧
      ((∀ t ∈ thresholds, t ≤ 0) → thresholdChoice thresholds samples = 0) := by
  haveI hTot : IsTotal (ℚ × ℕ) (fun p q : ℚ × ℕ => p.2 ≤ q.2) :=
    ⟨fun x y => Nat.le_total x.2 y.2⟩
  haveI hTrans : IsTrans (ℚ × ℕ) (fun p q : ℚ × ℕ => p.2 ≤ q.2) :=
    ⟨fun _ _ _ hab hbc => le_trans hab hbc⟩
  refine ⟨((thresholds.zip samples).insertionSort
      (fun p q : ℚ × ℕ => p.2 ≤ q.2)).reverse, ?_, ?_, ?_, ?_⟩
  · exact (List.reverse_perm _).trans (List.perm_insertionSort _ _)
  · exact List.pairwise_reverse.2 (List.sorted_insertionSort _ _)
  · rfl
  · intro hall
    unfold thresholdChoice
    rw [List.filter_eq_nil_iff.2 ?_]
    · rfl
    · intro t ht
      rcases List.mem_map.1 ht with ⟨p, hp, hpt⟩
      have hmem : p ∈ thresholds.zip samples :=
        ((List.perm_insertionSort _ _).mem_iff).1 (List.mem_reverse.1 hp)
      have : p.1 ∈ thresholds := by
        rcases p with ⟨t1, s1⟩
        exact (List.of_mem_zip hmem).1
      rw [← hpt]
      simpa using hall p.1 this

/-- Witness for C8: the selection property on thresholds `[1/2, 0, 3/4]` with
sample counts `[5, 9, 7]`. -/
theorem C8_witness :
    ([1 / 2, 0, 3 / 4] : List ℚ).length = ([5, 9, 7] : List ℕ).length ∧
    ∃ l : List (ℚ × ℕ),
      l.Perm (([1 / 2, 0, 3 / 4] : List ℚ).zip [5, 9, 7]) ∧
      l.Sorted (fun p q => q.2 ≤ p.2) ∧
      thresholdChoice [1 / 2, 0, 3 / 4] [5, 9, 7]
        = ((l.map Prod.fst).filter (fun t => decide (0 < t))).headD 0 ∧
      ((∀ t ∈ ([1 / 2, 0, 3 / 4] : List ℚ), t ≤ 0) →
        thresholdChoice [1 / 2, 0, 3 / 4] [5, 9, 7] = 0) :=
  ⟨rfl, C8_threshold_selection [1 / 2, 0, 3 / 4] [5, 9, 7] rfl⟩

end Icing
